import Mathlib

/-!
Shallow embedding of the node-graph construction and auto-layout engine of
`src/woodwork/material/node_creator.py`.  Floats are modelled as rationals;
Python's `int()` truncation is `pyint`.  Host (`bpy`) vertex records are the
`BpyNode` structure; the engine's class hierarchy is the `NodeClass` tag
carried by each `Node` value, with `compute_width` / `compute_height` /
`compute_buttons_y_space` dispatching on it exactly as the Python method
overrides do.
-/

namespace Woodwork

/-- Python `int()` applied to a float: truncation toward zero. -/
def pyint (q : ℚ) : ℤ := if 0 ≤ q then ⌊q⌋ else ⌈q⌉

/-- A host socket record; the engine only reads its `hide` flag. -/
structure BpySocket where
  hide : Bool
deriving DecidableEq, Repr

/-- A host node (vertex) record: the fields of `bpy.types.Node` that
`node_creator.py` reads. -/
structure BpyNode where
  locx : ℚ
  locy : ℚ
  width : ℚ
  height : ℚ
  hide : Bool
  show_preview : Bool
  show_options : Bool
  outputs : List BpySocket
  inputs : List BpySocket
deriving DecidableEq, Repr

/-- The concrete Python classes a node can be dispatched to by
`Node.create`'s `node_type_to_class` registry (plus `generic` for the base
`Node` class and `groupOutput` for the `GroupOutput` class, which exists in
the source but has no registry entry). -/
inductive NodeClass where
  | generic
  | frame
  | reroute
  | groupInput
  | groupOutput
  | groupNode
  | textureCoordinate
  | objectInfo
  | mixRGB
  | noiseTexture
  | gradientTexture
  | musgraveTexture
  | voronoiTexture
  | colorRamp
  | rgbCurve
  | math
  | separateRGB
  | separateXYZ
  | combineXYZ
  | value
deriving DecidableEq, Repr

/-- An engine-side node object: its Python class, its wrapped host vertex,
and (for `Frame` instances) the `children` list that `Frame.__init__`
initialises to `[]`. -/
inductive Node where
  | mk (cls : NodeClass) (bpy : BpyNode) (children : List Node)

/-- Python class of a node object. -/
def Node.cls : Node → NodeClass
  | .mk c _ _ => c

/-- The wrapped host vertex. -/
def Node.bpy : Node → BpyNode
  | .mk _ b _ => b

/-- The `children` list (meaningful only on `Frame` instances). -/
def Node.children : Node → List Node
  | .mk _ _ ch => ch

/-- `node.get_location().x`. -/
def Node.locx (n : Node) : ℚ := n.bpy.locx

/-- `node.get_location().y`. -/
def Node.locy (n : Node) : ℚ := n.bpy.locy

/-- `Node.get_width`: the stored host width. -/
def Node.get_width (n : Node) : ℚ := n.bpy.width

/-- `Node.get_height`: the stored host height. -/
def Node.get_height (n : Node) : ℚ := n.bpy.height

/-- `Node.set_location`: writes the host vertex's 2-D location. -/
def Node.set_location (n : Node) (p : ℚ × ℚ) : Node :=
  .mk n.cls { n.bpy with locx := p.1, locy := p.2 } n.children

/-- The `node_type_to_class` dictionary of `Node.create`, as an association
list in the source's entry order. -/
def node_type_to_class : List (String × NodeClass) :=
  [ ("NodeFrame", .frame)
  , ("NodeReroute", .reroute)
  , ("NodeGroupInput", .groupInput)
  , ("ShaderNodeGroup", .groupNode)
  , ("ShaderNodeTexCoord", .textureCoordinate)
  , ("ShaderNodeObjectInfo", .objectInfo)
  , ("ShaderNodeMixRGB", .mixRGB)
  , ("ShaderNodeTexNoise", .noiseTexture)
  , ("ShaderNodeTexGradient", .gradientTexture)
  , ("ShaderNodeTexMusgrave", .musgraveTexture)
  , ("ShaderNodeTexVoronoi", .voronoiTexture)
  , ("ShaderNodeValToRGB", .colorRamp)
  , ("ShaderNodeRGBCurve", .rgbCurve)
  , ("ShaderNodeMath", .math)
  , ("ShaderNodeSeparateRGB", .separateRGB)
  , ("ShaderNodeSeparateXYZ", .separateXYZ)
  , ("ShaderNodeCombineXYZ", .combineXYZ)
  , ("ShaderNodeValue", .value)
  ]

/-- The keys of the registry dictionary. -/
def registryKeys : List String := node_type_to_class.map Prod.fst

/-- `Node.create(tree, node_type)`: the host allocates a fresh vertex for
the tag (passed here as `bpyNode`), and the engine wraps it in
`node_type_to_class.get(node_type, Node)` — the class found in the registry,
or the base `Node` class when the tag is absent.  `Frame.__init__` starts
`children` at `[]`; no other class stores extra state relevant here. -/
def Node.create (node_type : String) (bpyNode : BpyNode) : Node :=
  .mk ((node_type_to_class.lookup node_type).getD .generic) bpyNode []

/-- `GroupOutput.create(tree)`: delegates to
`Node.create(tree, 'NodeGroupOutput')`. -/
def GroupOutput.create (bpyNode : BpyNode) : Node :=
  Node.create "NodeGroupOutput" bpyNode

/-- `GroupInput.create(tree)`: delegates to
`Node.create(tree, 'NodeGroupInput')`. -/
def GroupInput.create (bpyNode : BpyNode) : Node :=
  Node.create "NodeGroupInput" bpyNode

/-- The `compute_buttons_y_space` override of each Python class (base
`Node` returns `0.0`; each override sums its widget rows as in the
source). -/
def compute_buttons_y_space : NodeClass → ℚ
  | .groupNode => 20
  | .mixRGB => 20 + 20
  | .gradientTexture => 20
  | .musgraveTexture => 20
  | .voronoiTexture => 20
  | .colorRamp => 5 + 20 + 2 + 20 + 65
  | .rgbCurve => 20 + 5 + (8 * 20 + 5) + (20 + 5)
  | .math => (20 + 5) + (20 + 5)
  | _ => 0

/-- Number of sockets whose `hide` flag is not set (the loops in
`compute_height` skip hidden sockets). -/
def countVisible (l : List BpySocket) : ℕ :=
  (l.filter (fun s => !s.hide)).length

/-- One socket loop of `Node.compute_height`: for each non-hidden socket,
`dy = int(dy - node_dy); dy -= node_sockdy` with `node_dy = 20` and
`node_sockdy = 0.08 * 20 = 8/5`. -/
def sockLoop : List BpySocket → ℚ → ℚ
  | [], dy => dy
  | s :: rest, dy =>
    if s.hide then sockLoop rest dy
    else sockLoop rest (((pyint (dy - 20) : ℤ) : ℚ) - 8/5)

/-- `Node.compute_height` (the base-class formula), given the node's host
record and the value of its `compute_buttons_y_space` hook.  Direct
transcription: `widget_unit = 20`, `node_dy = 20`, `node_dys = 10`,
`node_sockdy = 8/5`; the hidden branch uses `hidden_rad` and the visible
branch walks `dy` downward from `location.y` and returns
`location.y - dy`. -/
def nodeHeight (bpy : BpyNode) (btn : ℚ) : ℚ :=
  if bpy.hide then
    let totout : ℕ := countVisible bpy.outputs
    let totin : ℕ := countVisible bpy.inputs
    let tot : ℕ := max totout totin
    let hiddenRad : ℚ := if 4 < tot then (3/4) * 20 + 5 * ((tot : ℚ) - 4) else (3/4) * 20
    let dy := bpy.locy + hiddenRad - (1/2) * 20
    bpy.locy - dy
  else
    let dy1 := bpy.locy - 20
    let dy2 := if bpy.outputs = [] then dy1 else dy1 - 5
    let dy3 := sockLoop bpy.outputs dy2
    let dy4 := dy3 + 8/5
    let dy5 := if 0 < btn then dy4 - 5 - btn - 5 else dy4
    let dy6 := sockLoop bpy.inputs dy5
    let dy7 := dy6 + 8/5
    let dy8 := if bpy.inputs ≠ [] ∨ (bpy.show_preview || bpy.show_options) = false
               then dy7 - 5 else dy7
    bpy.locy - dy8

/-- The sentinel the `Frame` bounding-box folds start from
(`99999999999999999.0` in the source). -/
def sentinel : ℚ := 99999999999999999

mutual

/-- `compute_width`, dispatched on the node's Python class: `ColorRamp`
clamps the stored width up to `10 * widget_unit = 200`; `Frame` computes
the children bounding box with `margin = 1.5 * 20 = 30` (falling back to
the stored width when `children` is empty); every other class returns the
stored width. -/
def Node.compute_width : Node → ℚ
  | .mk cls bpy children =>
    match cls with
    | .colorRamp =>
      if bpy.width < 10 * 20 then 10 * 20 else bpy.width
    | .frame =>
      match children with
      | [] => bpy.width
      | c :: cs =>
        let p := widthFold (c :: cs) (sentinel, -sentinel)
        p.2 - p.1
    | _ => bpy.width

/-- The child loop of `Frame.compute_width`: state `(lowest_x, highest_x)`,
updated with `child.x - margin` and `child.x + child.compute_width() +
margin`. -/
def widthFold : List Node → ℚ × ℚ → ℚ × ℚ
  | [], lh => lh
  | c :: cs, lh =>
    let cx := c.locx - 30
    let lo := if cx < lh.1 then cx else lh.1
    let cxmax := c.locx + Node.compute_width c + 30
    let hi := if lh.2 < cxmax then cxmax else lh.2
    widthFold cs (lo, hi)

end

mutual

/-- `compute_height`, dispatched on the node's Python class: `Frame`
computes the children bounding box over y (falling back to the stored
height when `children` is empty); every other class uses the base
`Node.compute_height` formula with its own `compute_buttons_y_space`. -/
def Node.compute_height : Node → ℚ
  | .mk cls bpy children =>
    match cls with
    | .frame =>
      match children with
      | [] => bpy.height
      | c :: cs =>
        let p := heightFold (c :: cs) (sentinel, -sentinel)
        p.2 - p.1
    | _ => nodeHeight bpy (compute_buttons_y_space cls)

/-- The child loop of `Frame.compute_height`: state `(lowest_y, highest_y)`,
updated with `child.y + margin` and `child.y - child.compute_height() -
margin`. -/
def heightFold : List Node → ℚ × ℚ → ℚ × ℚ
  | [], lh => lh
  | c :: cs, lh =>
    let cy := c.locy + 30
    let hi := if lh.2 < cy then cy else lh.2
    let cymax := c.locy - Node.compute_height c - 30
    let lo := if cymax < lh.1 then cymax else lh.1
    heightFold cs (lo, hi)

end

/-- The three `Position` strategy classes: `Location`, `Below` (with its
`with_distance` extra gap) and `OnTheRightSideOf`. -/
inductive Position where
  | location (xy : ℚ × ℚ)
  | below (relative_node : Node) (distance : ℚ)
  | onTheRightSideOf (relative_node : Node) (distance : ℚ)

/-- `Position.set_node_position` of each variant: `Below` writes
`(ref.x, ref.y - ref.compute_height() - distance)`, `OnTheRightSideOf`
writes `(ref.x + ref.compute_width() + distance, ref.y)`, `Location`
writes the stored pair. -/
def Position.set_node_position : Position → Node → Node
  | .location xy, n => n.set_location xy
  | .below r dist, n =>
    n.set_location (r.locx, r.locy - r.compute_height - dist)
  | .onTheRightSideOf r dist, n =>
    n.set_location (r.locx + r.compute_width + dist, r.locy)

/-- `Node.set_position(position)`: delegates to the strategy. -/
def Node.set_position (n : Node) (p : Position) : Node :=
  p.set_node_position n

/-! ### Linking (`Nodes.link`)

`Nodes.link` in the source performs no validation of its own: it passes the
two sockets straight to the host's `node_tree.links.new`.  A socket is
identified here by the graph (node tree) its node belongs to, the node, and
the slot. -/

/-- A socket reference: which graph/tree the socket's node lives in, which
node, and which slot on that node. -/
structure SocketRef where
  tree : ℕ
  node : ℕ
  slot : ℕ
deriving DecidableEq, Repr

/-- The state of one host node tree: its identity and the set of links
recorded so far. -/
structure TreeState where
  id : ℕ
  links : List (SocketRef × SocketRef)
deriving DecidableEq, Repr

/-- Modelled from the spec: the host's `links.new` call, which the source's
`Nodes.link` delegates to and which is not part of this repository.  Spec
§6 describes it as "connect output slot O of vertex A to input slot I of
vertex B inside document D", with no failure channel, so it records the
pair unconditionally. -/
def hostLinksNew (t : TreeState) (a b : SocketRef) : TreeState :=
  { t with links := t.links ++ [(a, b)] }

/-- `Nodes.link(input_socket, output_socket)`: the engine's entire body is
`self.node_tree.links.new(input_socket.as_bpy_type(), output_socket.as_bpy_type())`
— no membership check, no error path. -/
def Nodes.link (t : TreeState) (input_socket output_socket : SocketRef) : TreeState :=
  hostLinksNew t input_socket output_socket

/-! ### Parenting (`Node.set_parent` / `Frame.set_child`)

To speak about the mutation performed by `set_parent` (it touches both the
child's host record and, for `Frame` parents, the parent object's
`children` list) the object heap is modelled as a list of per-node records
indexed by position. -/

/-- The per-node state relevant to parenting: the node's Python class, the
host vertex's `parent` back-reference, and the engine-side `children` list
(`Frame` instances only ever grow it). -/
structure PNode where
  cls : NodeClass
  parent : Option ℕ
  children : List ℕ
deriving DecidableEq, Repr

/-- Replace the element at index `i` by `f` of it (no-op out of range). -/
def updAt : List PNode → ℕ → (PNode → PNode) → List PNode
  | [], _, _ => []
  | x :: xs, 0, f => f x :: xs
  | x :: xs, i + 1, f => x :: updAt xs i f

/-- Read the node record at index `i` (a default generic record out of
range). -/
def getN (st : List PNode) (i : ℕ) : PNode :=
  st.getD i ⟨.generic, none, []⟩

/-- `Frame.set_child(child)`: `self.children.append(child)`. -/
def setChildAt (st : List PNode) (p n : ℕ) : List PNode :=
  updAt st p (fun s => { s with children := s.children ++ [n] })

/-- `Node.set_parent(parent)`: `if type(parent) is Frame:
parent.set_child(self)`, then `self.node.parent = parent.as_bpy_type()`. -/
def set_parent (st : List PNode) (n p : ℕ) : List PNode :=
  let st1 := if (getN st p).cls = .frame then setChildAt st p n else st
  updAt st1 n (fun s => { s with parent := some p })

/-- Run a sequence of `set_parent` calls: each pair `(n, p)` is
`n.set_parent(p)`. -/
def runSeq (st : List PNode) (seq : List (ℕ × ℕ)) : List PNode :=
  seq.foldl (fun s q => set_parent s q.1 q.2) st

/-- The bidirectional parent/children consistency property claimed by the
spec: every child recorded in a Frame's list points back at that Frame;
every node whose back-reference names a Frame appears in that Frame's list;
and a non-Frame node's `children` list stays empty. -/
def Consistent (st : List PNode) : Prop :=
  (∀ p ∈ List.range st.length, (getN st p).cls = .frame →
      ∀ c ∈ (getN st p).children, (getN st c).parent = some p) ∧
  (∀ n ∈ List.range st.length, ∀ p ∈ List.range st.length,
      (getN st n).parent = some p →
      (getN st p).cls = .frame → n ∈ (getN st p).children) ∧
  (∀ p ∈ List.range st.length, (getN st p).cls ≠ .frame → (getN st p).children = [])

/-- A node that has not yet been given a parent: no back-reference and not
recorded in any node's `children` list. -/
def Fresh (st : List PNode) (n : ℕ) : Prop :=
  (getN st n).parent = none ∧ ∀ p ∈ List.range st.length, n ∉ (getN st p).children

/-! ### Spec-side definitions (used only to state claims against the code) -/

/-- Minimum of a non-empty list of rationals (`0` for `[]`); the "min over
children" of the spec's Frame bounding-box description. -/
def qminList : List ℚ → ℚ
  | [] => 0
  | x :: xs => xs.foldl min x

/-- Maximum of a non-empty list of rationals (`0` for `[]`); the "max over
children" of the spec's Frame bounding-box description. -/
def qmaxList : List ℚ → ℚ
  | [] => 0
  | x :: xs => xs.foldl max x

/-- The claim's reading of the visible-node height formula, as a plain
top-to-bottom sum: one 20px header row; a 5px half-row of top padding if
the node has any outputs; one row plus socket spacing (20 + 8/5) per
visible output; the `compute_buttons_y_space` contribution with 5px of
padding on each side when positive; one row plus socket spacing per
visible input; and a closing 5px half-row unless the node has no inputs
and also shows preview/options controls. -/
def specHeightSum (bpy : BpyNode) (btn : ℚ) : ℚ :=
  20 + (if bpy.outputs = [] then 0 else 5)
    + (countVisible bpy.outputs : ℚ) * (20 + 8/5)
    + (if 0 < btn then 5 + btn + 5 else 0)
    + (countVisible bpy.inputs : ℚ) * (20 + 8/5)
    + (if bpy.inputs ≠ [] ∨ (bpy.show_preview || bpy.show_options) = false
       then 5 else 0)

/-- Integer-valued image of `compute_buttons_y_space` (every override sums
integer widget constants). -/
def buttonsZ : NodeClass → ℤ
  | .groupNode => 20
  | .mixRGB => 40
  | .gradientTexture => 20
  | .musgraveTexture => 20
  | .voronoiTexture => 20
  | .colorRamp => 112
  | .rgbCurve => 215
  | .math => 50
  | _ => 0

/-! ### Concrete objects used by witnesses and counterexamples -/

/-- A baseline host record: visible node at the origin, no sockets. -/
def exBpy : BpyNode :=
  { locx := 0, locy := 0, width := 140, height := 100, hide := false,
    show_preview := false, show_options := false, outputs := [], inputs := [] }

/-- A socket that is not hidden. -/
def visSocket : BpySocket := { hide := false }

/-- A collapsed (`hide = true`) host record with the given numbers of
visible outputs and inputs. -/
def hiddenBpy (nout nin : ℕ) : BpyNode :=
  { exBpy with
    hide := true,
    outputs := List.replicate nout visSocket,
    inputs := List.replicate nin visSocket }

/-- Collapsed node with 6 visible outputs and 2 visible inputs. -/
def collapsed62 : Node := .mk .generic (hiddenBpy 6 2) []

/-- Collapsed node with 2 visible outputs and 2 visible inputs. -/
def collapsed22 : Node := .mk .generic (hiddenBpy 2 2) []

/-- Visible generic node with one visible output and no inputs. -/
def c5Bpy : BpyNode := { exBpy with outputs := [visSocket] }

/-- The node built on `c5Bpy`. -/
def c5Node : Node := .mk .generic c5Bpy []

/-- Visible generic host record with one visible output and one visible
input. -/
def c5WitBpy : BpyNode := { exBpy with outputs := [visSocket], inputs := [visSocket] }

/-- A plain generic node at `(x, y)` with stored width `w`. -/
def plainAt (x y w : ℚ) : Node :=
  .mk .generic { exBpy with locx := x, locy := y, width := w } []

/-- Children at x-positions 10, 50, 90, each of width 20. -/
def frameChildren3 : List Node := [plainAt 10 0 20, plainAt 50 0 20, plainAt 90 0 20]

/-- The frame over `frameChildren3`. -/
def exFrame3 : Node := .mk .frame exBpy frameChildren3

/-- Children at y-positions 0 and -100. -/
def frameChildrenY : List Node := [plainAt 0 0 20, plainAt 0 (-100) 20]

/-- The frame over `frameChildrenY`. -/
def exFrameY : Node := .mk .frame exBpy frameChildrenY

/-- An empty node tree with id 0. -/
def exTree : TreeState := { id := 0, links := [] }

/-- A socket of a node in tree 0. -/
def sockA : SocketRef := { tree := 0, node := 0, slot := 0 }

/-- A socket of a node in a different tree (id 1). -/
def sockB : SocketRef := { tree := 1, node := 4, slot := 1 }

/-- ColorRamp host record whose stored width 300 exceeds the 200px
template width. -/
def crBpy : BpyNode := { exBpy with width := 300 }

/-- Heap for the parenting claims: node 0 and node 1 are `Frame`
instances, node 2 is a plain node; nothing parented yet. -/
def st8 : List PNode :=
  [ { cls := .frame, parent := none, children := [] }
  , { cls := .frame, parent := none, children := [] }
  , { cls := .generic, parent := none, children := [] } ]

/-- Re-parenting sequence: node 2 is parented to frame 0, then to
frame 1. -/
def seqBad : List (ℕ × ℕ) := [(2, 0), (2, 1)]

/-- A sequence in which every node is parented at most once. -/
def seqGood : List (ℕ × ℕ) := [(1, 0), (2, 0)]

instance (st : List PNode) : Decidable (Consistent st) := by
  unfold Consistent; infer_instance

instance (st : List PNode) (n : ℕ) : Decidable (Fresh st n) := by
  unfold Fresh; infer_instance

/-! ## General lemmas -/

theorem ite_lt_min (a x : ℚ) : (if x < a then x else a) = min a x := by
  rcases lt_or_le x a with h | h
  · rw [if_pos h, min_eq_right h.le]
  · rw [if_neg (not_lt.mpr h), min_eq_left h]

theorem ite_gt_max (a x : ℚ) : (if a < x then x else a) = max a x := by
  rcases lt_or_le a x with h | h
  · rw [if_pos h, max_eq_right h.le]
  · rw [if_neg (not_lt.mpr h), max_eq_left h]

theorem foldl_min_cons (xs : List ℚ) :
    ∀ a x : ℚ, List.foldl min a (x :: xs) = min a (List.foldl min x xs) := by
  induction xs with
  | nil => intro a x; simp
  | cons y ys ih =>
    intro a x
    have h1 : List.foldl min a (x :: y :: ys) = List.foldl min (min a x) (y :: ys) := rfl
    rw [h1, ih (min a x) y, min_assoc, ← ih x y]

theorem foldl_max_cons (xs : List ℚ) :
    ∀ a x : ℚ, List.foldl max a (x :: xs) = max a (List.foldl max x xs) := by
  induction xs with
  | nil => intro a x; simp
  | cons y ys ih =>
    intro a x
    have h1 : List.foldl max a (x :: y :: ys) = List.foldl max (max a x) (y :: ys) := rfl
    rw [h1, ih (max a x) y, max_assoc, ← ih x y]

theorem foldl_min_le (xs : List ℚ) : ∀ a : ℚ, List.foldl min a xs ≤ a := by
  induction xs with
  | nil => intro a; exact le_refl a
  | cons x ys ih =>
    intro a
    exact (ih (min a x)).trans (min_le_left a x)

theorem le_foldl_max (xs : List ℚ) : ∀ a : ℚ, a ≤ List.foldl max a xs := by
  induction xs with
  | nil => intro a; exact le_refl a
  | cons x ys ih =>
    intro a
    exact (le_max_left a x).trans (ih (max a x))

theorem widthFold_spec (l : List Node) :
    ∀ a b : ℚ, widthFold l (a, b) =
      (List.foldl min a (l.map fun c => c.locx - 30),
       List.foldl max b (l.map fun c => c.locx + c.compute_width + 30)) := by
  induction l with
  | nil => intro a b; rfl
  | cons c cs ih =>
    intro a b
    simp only [widthFold, ite_lt_min, ite_gt_max, List.map_cons, List.foldl_cons]
    rw [ih]

theorem heightFold_spec (l : List Node) :
    ∀ a b : ℚ, heightFold l (a, b) =
      (List.foldl min a (l.map fun c => c.locy - c.compute_height - 30),
       List.foldl max b (l.map fun c => c.locy + 30)) := by
  induction l with
  | nil => intro a b; rfl
  | cons c cs ih =>
    intro a b
    simp only [heightFold, ite_lt_min, ite_gt_max, List.map_cons, List.foldl_cons]
    rw [ih]

theorem pyint_intCast (z : ℤ) : pyint ((z : ℚ)) = z := by
  unfold pyint
  split <;> simp

theorem pyint_intCast_sub (z : ℤ) (hz : z ≤ 0) : pyint ((z : ℚ) - 8/5) = z - 1 := by
  have hzq : (z : ℚ) ≤ 0 := by exact_mod_cast hz
  have hneg : (z : ℚ) - 8/5 < 0 := by linarith
  unfold pyint
  rw [if_neg (not_le.mpr hneg)]
  have h2 : (z : ℚ) - 8/5 = (-8/5 : ℚ) + (z : ℚ) := by ring
  have h3 : ⌈(-8/5 : ℚ)⌉ = -1 := by
    rw [Int.ceil_eq_iff]
    norm_num
  rw [h2, Int.ceil_add_int, h3]
  ring

theorem countVisible_cons (s : BpySocket) (l : List BpySocket) :
    countVisible (s :: l) = if s.hide then countVisible l else countVisible l + 1 := by
  cases hs : s.hide <;> simp [countVisible, List.filter_cons, hs]

theorem sockLoop_frac (l : List BpySocket) :
    ∀ m : ℤ, m ≤ 0 →
      sockLoop l ((m : ℚ) - 8/5) = ((m - 21 * (countVisible l : ℤ) : ℤ) : ℚ) - 8/5 := by
  induction l with
  | nil =>
    intro m hm
    simp [sockLoop, countVisible]
  | cons s rest ih =>
    intro m hm
    by_cases hs : s.hide
    · rw [show sockLoop (s :: rest) ((m : ℚ) - 8/5) = sockLoop rest ((m : ℚ) - 8/5) from by
        simp [sockLoop, hs]]
      rw [ih m hm, countVisible_cons, if_pos hs]
    · have harg : (m : ℚ) - 8/5 - 20 = ((m - 20 : ℤ) : ℚ) - 8/5 := by push_cast; ring
      have hp : pyint ((m : ℚ) - 8/5 - 20) = m - 21 := by
        rw [harg, pyint_intCast_sub (m - 20) (by omega)]
        ring
      rw [show sockLoop (s :: rest) ((m : ℚ) - 8/5) =
            sockLoop rest (((pyint ((m : ℚ) - 8/5 - 20) : ℤ) : ℚ) - 8/5) from by
        simp [sockLoop, hs]]
      rw [hp, ih (m - 21) (by omega), countVisible_cons, if_neg hs]
      push_cast
      ring

theorem sockLoop_int (l : List BpySocket) :
    ∀ m : ℤ, m ≤ 0 →
      sockLoop l ((m : ℚ)) =
        if countVisible l = 0 then ((m : ℚ))
        else ((m - 20 - 21 * ((countVisible l : ℤ) - 1) : ℤ) : ℚ) - 8/5 := by
  induction l with
  | nil =>
    intro m hm
    simp [sockLoop, countVisible]
  | cons s rest ih =>
    intro m hm
    by_cases hs : s.hide
    · rw [show sockLoop (s :: rest) ((m : ℚ)) = sockLoop rest ((m : ℚ)) from by
        simp [sockLoop, hs]]
      rw [ih m hm, countVisible_cons, if_pos hs]
    · have hp : pyint ((m : ℚ) - 20) = m - 20 := by
        rw [show (m : ℚ) - 20 = ((m - 20 : ℤ) : ℚ) from by push_cast; ring, pyint_intCast]
      rw [show sockLoop (s :: rest) ((m : ℚ)) =
            sockLoop rest (((pyint ((m : ℚ) - 20) : ℤ) : ℚ) - 8/5) from by
        simp [sockLoop, hs]]
      rw [hp, sockLoop_frac rest (m - 20) (by omega), countVisible_cons, if_neg hs]
      rw [if_neg (by omega)]
      push_cast
      ring

theorem sockLoop_eq (l : List BpySocket) (q : ℚ) (m : ℤ) (hq : q = (m : ℚ)) (hm : m ≤ 0) :
    sockLoop l q =
      if countVisible l = 0 then (m : ℚ)
      else ((m - 20 - 21 * ((countVisible l : ℤ) - 1) : ℤ) : ℚ) - 8/5 := by
  rw [hq, sockLoop_int l m hm]

theorem nodeHeight_closed (bpy : BpyNode) (bz : ℤ) (hb : 0 ≤ bz)
    (hhide : bpy.hide = false) (hy : bpy.locy = 0)
    (hno : 1 ≤ countVisible bpy.outputs) (hni : 1 ≤ countVisible bpy.inputs) :
    nodeHeight bpy ((bz : ℚ)) =
      28 + 21 * (countVisible bpy.outputs : ℚ) + 21 * (countVisible bpy.inputs : ℚ) +
        (if 0 < (bz : ℚ) then 10 + (bz : ℚ) else 0) := by
  have houts : ¬(bpy.outputs = []) := by
    intro he; rw [he] at hno; simp [countVisible] at hno
  have hins : ¬(bpy.inputs = []) := by
    intro he; rw [he] at hni; simp [countVisible] at hni
  have hno0 : ¬(countVisible bpy.outputs = 0) := by omega
  have hni0 : ¬(countVisible bpy.inputs = 0) := by omega
  unfold nodeHeight
  simp only [hhide, Bool.false_eq_true, if_false, hy, houts, hins, ite_false, ne_eq,
    not_false_eq_true, true_or, if_true]
  rw [sockLoop_eq bpy.outputs (0 - 20 - 5) (-25) (by norm_num) (by norm_num), if_neg hno0]
  by_cases hbtn : 0 < (bz : ℚ)
  · rw [if_pos hbtn, if_pos hbtn]
    rw [sockLoop_eq bpy.inputs
      (((-25 - 20 - 21 * ((countVisible bpy.outputs : ℤ) - 1) : ℤ) : ℚ) - 8 / 5 + 8 / 5 - 5 -
        (bz : ℚ) - 5)
      (-55 - 21 * ((countVisible bpy.outputs : ℤ) - 1) - bz)
      (by push_cast; ring) (by omega), if_neg hni0]
    push_cast
    ring
  · rw [if_neg hbtn, if_neg hbtn]
    rw [sockLoop_eq bpy.inputs
      (((-25 - 20 - 21 * ((countVisible bpy.outputs : ℤ) - 1) : ℤ) : ℚ) - 8 / 5 + 8 / 5)
      (-45 - 21 * ((countVisible bpy.outputs : ℤ) - 1))
      (by push_cast; ring) (by omega), if_neg hni0]
    push_cast
    ring

theorem frame_width_eq (bpy : BpyNode) (c : Node) (cs : List Node)
    (hlo : ∀ x ∈ c :: cs, x.locx - 30 ≤ sentinel)
    (hhi : ∀ x ∈ c :: cs, -sentinel ≤ x.locx + x.compute_width + 30) :
    Node.compute_width (.mk .frame bpy (c :: cs)) =
      qmaxList ((c :: cs).map fun x => x.locx + x.compute_width + 30) -
      qminList ((c :: cs).map fun x => x.locx - 30) := by
  have h0 : Node.compute_width (.mk .frame bpy (c :: cs)) =
      (widthFold (c :: cs) (sentinel, -sentinel)).2 -
      (widthFold (c :: cs) (sentinel, -sentinel)).1 := by
    simp [Node.compute_width]
  rw [h0, widthFold_spec]
  have hmin : List.foldl min sentinel ((c :: cs).map fun x => x.locx - 30) =
      qminList ((c :: cs).map fun x => x.locx - 30) := by
    rw [List.map_cons, foldl_min_cons]
    have hle : List.foldl min (c.locx - 30) (cs.map fun x => x.locx - 30) ≤ sentinel :=
      (foldl_min_le _ _).trans (hlo c (List.mem_cons_self c cs))
    rw [min_eq_right hle]
    rfl
  have hmax : List.foldl max (-sentinel)
        ((c :: cs).map fun x => x.locx + x.compute_width + 30) =
      qmaxList ((c :: cs).map fun x => x.locx + x.compute_width + 30) := by
    rw [List.map_cons, foldl_max_cons]
    have hle : -sentinel ≤
        List.foldl max (c.locx + c.compute_width + 30)
          (cs.map fun x => x.locx + x.compute_width + 30) :=
      (hhi c (List.mem_cons_self c cs)).trans (le_foldl_max _ _)
    rw [max_eq_right hle]
    rfl
  rw [hmin, hmax]

theorem frame_height_eq (bpy : BpyNode) (c : Node) (cs : List Node)
    (hlo : ∀ x ∈ c :: cs, x.locy - x.compute_height - 30 ≤ sentinel)
    (hhi : ∀ x ∈ c :: cs, -sentinel ≤ x.locy + 30) :
    Node.compute_height (.mk .frame bpy (c :: cs)) =
      qmaxList ((c :: cs).map fun x => x.locy + 30) -
      qminList ((c :: cs).map fun x => x.locy - x.compute_height - 30) := by
  have h0 : Node.compute_height (.mk .frame bpy (c :: cs)) =
      (heightFold (c :: cs) (sentinel, -sentinel)).2 -
      (heightFold (c :: cs) (sentinel, -sentinel)).1 := by
    simp [Node.compute_height]
  rw [h0, heightFold_spec]
  have hmin : List.foldl min sentinel
        ((c :: cs).map fun x => x.locy - x.compute_height - 30) =
      qminList ((c :: cs).map fun x => x.locy - x.compute_height - 30) := by
    rw [List.map_cons, foldl_min_cons]
    have hle : List.foldl min (c.locy - c.compute_height - 30)
        (cs.map fun x => x.locy - x.compute_height - 30) ≤ sentinel :=
      (foldl_min_le _ _).trans (hlo c (List.mem_cons_self c cs))
    rw [min_eq_right hle]
    rfl
  have hmax : List.foldl max (-sentinel) ((c :: cs).map fun x => x.locy + 30) =
      qmaxList ((c :: cs).map fun x => x.locy + 30) := by
    rw [List.map_cons, foldl_max_cons]
    have hle : -sentinel ≤
        List.foldl max (c.locy + 30) (cs.map fun x => x.locy + 30) :=
      (hhi c (List.mem_cons_self c cs)).trans (le_foldl_max _ _)
    rw [max_eq_right hle]
    rfl
  rw [hmin, hmax]

theorem lookup_eq_none_of_not_mem (tag : String) :
    ∀ l : List (String × NodeClass), tag ∉ l.map Prod.fst → l.lookup tag = none := by
  intro l
  induction l with
  | nil => intro _; rfl
  | cons kv rest ih =>
    intro h
    obtain ⟨k, v⟩ := kv
    simp only [List.map_cons, List.mem_cons, not_or] at h
    obtain ⟨h1, h2⟩ := h
    have hk : (tag == k) = false := beq_eq_false_iff_ne.mpr h1
    simp [List.lookup, hk, ih h2]

theorem length_updAt (l : List PNode) : ∀ (i : ℕ) (f : PNode → PNode),
    (updAt l i f).length = l.length := by
  induction l with
  | nil => intro i f; rfl
  | cons x xs ih =>
    intro i f
    cases i with
    | zero => rfl
    | succ j => simp [updAt, ih]

theorem updAt_len_le (l : List PNode) : ∀ (i : ℕ) (f : PNode → PNode),
    l.length ≤ i → updAt l i f = l := by
  induction l with
  | nil => intro i f _; rfl
  | cons x xs ih =>
    intro i f hi
    cases i with
    | zero => simp at hi
    | succ j =>
      have hj : xs.length ≤ j := by simpa using hi
      simp [updAt, ih j f hj]

theorem getN_updAt_self (l : List PNode) : ∀ (i : ℕ) (f : PNode → PNode),
    i < l.length → getN (updAt l i f) i = f (getN l i) := by
  induction l with
  | nil => intro i f hi; simp at hi
  | cons x xs ih =>
    intro i f hi
    cases i with
    | zero => rfl
    | succ j =>
      have hj : j < xs.length := by simpa using hi
      exact ih j f hj

theorem getN_updAt_ne (l : List PNode) : ∀ (i j : ℕ) (f : PNode → PNode),
    i ≠ j → getN (updAt l i f) j = getN l j := by
  induction l with
  | nil => intro i j f _; rfl
  | cons x xs ih =>
    intro i j f hij
    cases i with
    | zero =>
      cases j with
      | zero => exact absurd rfl hij
      | succ k => rfl
    | succ m =>
      cases j with
      | zero => rfl
      | succ k => exact ih m k f fun he => hij (by rw [he])

theorem getN_updAt (l : List PNode) (i q : ℕ) (f : PNode → PNode) :
    getN (updAt l i f) q = if q = i ∧ i < l.length then f (getN l i) else getN l q := by
  rcases lt_or_le i l.length with hi | hi
  · by_cases hq : q = i
    · subst hq
      rw [if_pos ⟨rfl, hi⟩, getN_updAt_self l q f hi]
    · rw [if_neg fun hc => hq hc.1, getN_updAt_ne l i q f fun he => hq he.symm]
  · rw [updAt_len_le l i f hi, if_neg fun hc => absurd hc.2 (not_lt.mpr hi)]

theorem length_set_parent (st : List PNode) (n p : ℕ) :
    (set_parent st n p).length = st.length := by
  unfold set_parent setChildAt
  by_cases hf : (getN st p).cls = .frame <;> simp [hf, length_updAt]

theorem getN_updAt_cls (l : List PNode) (i q : ℕ) (f : PNode → PNode)
    (hf : ∀ s, (f s).cls = s.cls) : (getN (updAt l i f) q).cls = (getN l q).cls := by
  rw [getN_updAt]
  split_ifs with h
  · obtain ⟨hq, _⟩ := h
    subst hq
    exact hf _
  · rfl

theorem getN_updAt_parent (l : List PNode) (i q : ℕ) (f : PNode → PNode)
    (hf : ∀ s, (f s).parent = s.parent) :
    (getN (updAt l i f) q).parent = (getN l q).parent := by
  rw [getN_updAt]
  split_ifs with h
  · obtain ⟨hq, _⟩ := h
    subst hq
    exact hf _
  · rfl

theorem getN_updAt_children (l : List PNode) (i q : ℕ) (f : PNode → PNode)
    (hf : ∀ s, (f s).children = s.children) :
    (getN (updAt l i f) q).children = (getN l q).children := by
  rw [getN_updAt]
  split_ifs with h
  · obtain ⟨hq, _⟩ := h
    subst hq
    exact hf _
  · rfl

theorem set_parent_cls (st : List PNode) (n p q : ℕ) :
    (getN (set_parent st n p) q).cls = (getN st q).cls := by
  unfold set_parent setChildAt
  by_cases hf : (getN st p).cls = .frame
  · simp only [hf, if_true]
    rw [getN_updAt_cls _ n q (fun s => { s with parent := some p }) fun s => rfl,
      getN_updAt_cls _ p q (fun s => { s with children := s.children ++ [n] }) fun s => rfl]
  · simp only [hf, if_false]
    rw [getN_updAt_cls _ n q (fun s => { s with parent := some p }) fun s => rfl]

theorem set_parent_parent_self (st : List PNode) (n p : ℕ) (hn : n < st.length) :
    (getN (set_parent st n p) n).parent = some p := by
  unfold set_parent setChildAt
  by_cases hf : (getN st p).cls = .frame
  · simp only [hf, if_true]
    rw [getN_updAt, if_pos ⟨rfl, by rw [length_updAt]; exact hn⟩]
  · simp only [hf, if_false]
    rw [getN_updAt, if_pos ⟨rfl, hn⟩]

theorem set_parent_parent_ne (st : List PNode) (n p q : ℕ) (hq : q ≠ n) :
    (getN (set_parent st n p) q).parent = (getN st q).parent := by
  unfold set_parent setChildAt
  by_cases hf : (getN st p).cls = .frame
  · simp only [hf, if_true]
    rw [getN_updAt, if_neg fun hc => hq hc.1,
      getN_updAt_parent _ p q (fun s => { s with children := s.children ++ [n] }) fun s => rfl]
  · simp only [hf, if_false]
    rw [getN_updAt, if_neg fun hc => hq hc.1]

theorem set_parent_children (st : List PNode) (n p q : ℕ) :
    (getN (set_parent st n p) q).children =
      if (getN st p).cls = .frame ∧ q = p ∧ p < st.length
      then (getN st p).children ++ [n] else (getN st q).children := by
  unfold set_parent setChildAt
  by_cases hf : (getN st p).cls = .frame
  · simp only [hf, if_true, true_and]
    rw [getN_updAt_children _ n q (fun s => { s with parent := some p }) fun s => rfl,
      getN_updAt]
    by_cases hqp : q = p ∧ p < st.length
    · rw [if_pos hqp, if_pos hqp]
    · rw [if_neg hqp, if_neg hqp]
  · simp only [hf, if_false, false_and]
    rw [getN_updAt_children _ n q (fun s => { s with parent := some p }) fun s => rfl]

theorem set_parent_consistent (st : List PNode) (n p : ℕ)
    (hn : n < st.length) (hp : p < st.length)
    (hc : Consistent st) (hf : Fresh st n) :
    Consistent (set_parent st n p) := by
  obtain ⟨h1, h2, h3⟩ := hc
  obtain ⟨hfp, hfc⟩ := hf
  have hlen : (set_parent st n p).length = st.length := length_set_parent st n p
  have hnotmem : ∀ q, q < st.length → n ∉ (getN st q).children := fun q hq =>
    hfc q (List.mem_range.mpr hq)
  refine ⟨?_, ?_, ?_⟩
  · intro q hqm hqf c hcm
    have hq : q < st.length := by rw [← hlen]; exact List.mem_range.mp hqm
    have hqf0 : (getN st q).cls = .frame := by rw [← set_parent_cls st n p q]; exact hqf
    rw [set_parent_children] at hcm
    split_ifs at hcm with hcase
    · obtain ⟨hpf, hqp, _⟩ := hcase
      rcases List.mem_append.mp hcm with hold | hnew
      · have hcn : c ≠ n := fun he => hnotmem p hp (he ▸ hold)
        rw [set_parent_parent_ne st n p c hcn, hqp]
        exact h1 p (List.mem_range.mpr hp) hpf c hold
      · have hce : c = n := by simpa using hnew
        rw [hce, set_parent_parent_self st n p hn, hqp]
    · have hcn : c ≠ n := fun he => hnotmem q hq (he ▸ hcm)
      rw [set_parent_parent_ne st n p c hcn]
      exact h1 q (List.mem_range.mpr hq) hqf0 c hcm
  · intro m hmm q hqm hpar hqf
    have hm : m < st.length := by rw [← hlen]; exact List.mem_range.mp hmm
    have hq : q < st.length := by rw [← hlen]; exact List.mem_range.mp hqm
    have hqf0 : (getN st q).cls = .frame := by rw [← set_parent_cls st n p q]; exact hqf
    by_cases hmn : m = n
    · rw [hmn] at hpar ⊢
      rw [set_parent_parent_self st n p hn] at hpar
      have hqp : q = p := (Option.some.inj hpar).symm
      rw [hqp] at hqf0 ⊢
      rw [set_parent_children, if_pos ⟨hqf0, rfl, hp⟩]
      exact List.mem_append.mpr (Or.inr (List.mem_singleton.mpr rfl))
    · rw [set_parent_parent_ne st n p m hmn] at hpar
      have hmem : m ∈ (getN st q).children :=
        h2 m (List.mem_range.mpr hm) q (List.mem_range.mpr hq) hpar hqf0
      rw [set_parent_children]
      split_ifs with hcase
      · obtain ⟨_, hqp, _⟩ := hcase
        exact List.mem_append.mpr (Or.inl (hqp ▸ hmem))
      · exact hmem
  · intro q hqm hqnf
    have hq : q < st.length := by rw [← hlen]; exact List.mem_range.mp hqm
    have hqnf0 : (getN st q).cls ≠ .frame := by
      rw [← set_parent_cls st n p q]; exact hqnf
    rw [set_parent_children]
    split_ifs with hcase
    · exact absurd (hcase.2.1 ▸ hcase.1) hqnf0
    · exact h3 q (List.mem_range.mpr hq) hqnf0

theorem set_parent_fresh (st : List PNode) (n p m : ℕ) (hmn : m ≠ n) (hf : Fresh st m) :
    Fresh (set_parent st n p) m := by
  obtain ⟨h1, h2⟩ := hf
  constructor
  · rw [set_parent_parent_ne st n p m hmn]
    exact h1
  · intro q hqm
    have hq : q < st.length := by
      rw [← length_set_parent st n p]; exact List.mem_range.mp hqm
    rw [set_parent_children]
    split_ifs with hcase
    · obtain ⟨_, hqp, hplen⟩ := hcase
      intro hmem
      rcases List.mem_append.mp hmem with hold | hnew
      · exact h2 p (List.mem_range.mpr hplen) (hqp ▸ hold)
      · exact hmn (by simpa using hnew)
    · exact h2 q (List.mem_range.mpr hq)

/-! ## Claim theorems -/

/-- Claim C1 (code bug evidence): the hidden branch of `compute_height`
computes `dy` as the node's TOP edge (`location.y + hidden_rad - 10`) while
the common return line `location.y - dy` assumes `dy` is the BOTTOM edge, so
a collapsed node's reported height is `10 - hidden_rad`, which is negative
and DECREASES as the larger visible socket count grows: a collapsed node
with 6 visible outputs and 2 visible inputs reports height `-15`, one with
2 and 2 reports `-5`, contradicting the claim (and the Blender drawing
metrics the function documents itself as replicating) that the former is
strictly greater. -/
theorem C1_collapsed_height_code_bug :
    Node.compute_height collapsed62 = -15 ∧
    Node.compute_height collapsed22 = -5 ∧
    Node.compute_height collapsed62 < Node.compute_height collapsed22 := by
  have h62 : Node.compute_height collapsed62 = -15 := by
    norm_num [Node.compute_height, collapsed62, hiddenBpy, exBpy, nodeHeight, countVisible,
      visSocket, List.replicate]
  have h22 : Node.compute_height collapsed22 = -5 := by
    norm_num [Node.compute_height, collapsed22, hiddenBpy, exBpy, nodeHeight, countVisible,
      visSocket, List.replicate]
  exact ⟨h62, h22, by rw [h62, h22]; norm_num⟩

/-- Claim C2: `Below(reference, d)` resolves a node's location to
`(reference.x, reference.y - reference.compute_height() - d)` and
`OnTheRightSideOf(reference, d)` to
`(reference.x + reference.compute_width() + d, reference.y)`; composing
them, placing `B` right of `A` with distance `d` and then `C` below `B`
with distance `d2` yields `B.x = A.x + A.compute_width() + d`,
`B.y = A.y`, `C.y = B.y - B.compute_height() - d2` and `C.x = B.x`. -/
theorem C2_position_resolution (n r A B C : Node) (d d2 : ℚ) :
    Position.set_node_position (.below r d) n =
      n.set_location (r.locx, r.locy - r.compute_height - d) ∧
    Position.set_node_position (.onTheRightSideOf r d) n =
      n.set_location (r.locx + r.compute_width + d, r.locy) ∧
    (B.set_position (.onTheRightSideOf A d)).locx = A.locx + A.compute_width + d ∧
    (B.set_position (.onTheRightSideOf A d)).locy = A.locy ∧
    (C.set_position (.below (B.set_position (.onTheRightSideOf A d)) d2)).locy =
      (B.set_position (.onTheRightSideOf A d)).locy -
        (B.set_position (.onTheRightSideOf A d)).compute_height - d2 ∧
    (C.set_position (.below (B.set_position (.onTheRightSideOf A d)) d2)).locx =
      (B.set_position (.onTheRightSideOf A d)).locx :=
  ⟨rfl, rfl, rfl, rfl, rfl, rfl⟩

/-- Claim C3: `Frame.compute_width()` returns the stored explicit width
when `children` is empty, and otherwise
`max over children of (child.x + child.compute_width() + margin) - min
over children of (child.x - margin)` with `margin = 30`, provided every
child's extent lies within the `±99999999999999999.0` sentinels the fold
starts from (always true of practical coordinates). -/
theorem C3_frame_width (bpy : BpyNode) (children : List Node)
    (hne : children ≠ [])
    (hlo : ∀ x ∈ children, x.locx - 30 ≤ sentinel)
    (hhi : ∀ x ∈ children, -sentinel ≤ x.locx + x.compute_width + 30) :
    Node.compute_width (.mk .frame bpy children) =
      qmaxList (children.map fun x => x.locx + x.compute_width + 30) -
      qminList (children.map fun x => x.locx - 30) ∧
    Node.compute_width (.mk .frame bpy []) = bpy.width := by
  constructor
  · cases children with
    | nil => exact absurd rfl hne
    | cons c cs => exact frame_width_eq bpy c cs hlo hhi
  · simp [Node.compute_width]

/-- Witness for C3: a frame whose children sit at x = 10, 50, 90 with
width 20 each has computed width `(90 + 20 + 30) - (10 - 30) = 160`. -/
theorem C3_frame_width_witness :
    frameChildren3 ≠ [] ∧
    Node.compute_width exFrame3 = (90 + 20 + 30) - (10 - 30) := by
  have hlo : ∀ x ∈ frameChildren3, x.locx - 30 ≤ sentinel := by
    norm_num [frameChildren3, plainAt, Node.locx, Node.bpy, exBpy, sentinel]
  have hhi : ∀ x ∈ frameChildren3, -sentinel ≤ x.locx + x.compute_width + 30 := by
    norm_num [frameChildren3, plainAt, Node.locx, Node.bpy, exBpy, sentinel, Node.compute_width]
  refine ⟨List.cons_ne_nil _ _, ?_⟩
  have h := (C3_frame_width exBpy frameChildren3 (List.cons_ne_nil _ _) hlo hhi).1
  show Node.compute_width (.mk .frame exBpy frameChildren3) = (90 + 20 + 30) - (10 - 30)
  rw [h]
  norm_num [frameChildren3, plainAt, qmaxList, qminList, Node.locx, Node.bpy, exBpy,
    Node.compute_width]

/-- Counterexample to claim C4: `Nodes.link` performs no validation at
all — linking a socket of tree 0 to a socket of a different tree (id 1)
does not fail and the pair is recorded in the link set regardless. -/
theorem C4_link_cross_graph_recorded :
    sockA.tree ≠ sockB.tree ∧
    (Nodes.link exTree sockA sockB).links = exTree.links ++ [(sockA, sockB)] ∧
    (Nodes.link exTree sockA sockB).links = [(sockA, sockB)] :=
  ⟨by decide, rfl, rfl⟩

/-- Claim C4 (amended): `Nodes.link` is a total function that
unconditionally forwards its two sockets to the host's `links.new`,
recording the pair in the tree's link set for every pair of sockets —
including sockets of different graphs — and never raises an engine-side
"invalid link" error. -/
theorem C4_link_no_validation (t : TreeState) (a b : SocketRef) :
    (Nodes.link t a b).links = t.links ++ [(a, b)] ∧ (Nodes.link t a b).id = t.id :=
  ⟨rfl, rfl⟩

/-- Counterexample to claim C5: the visible-node `compute_height` is NOT
the plain top-to-bottom sum described by the spec.  For a node at y = 0
with one visible output and no inputs the code yields `242/5 = 48.4`
(each socket loop adds back one socket spacing after the loop — even the
empty input loop — and `int()` truncates the running offset), while the
claimed sum yields `258/5 = 51.6`. -/
theorem C5_height_not_plain_sum :
    Node.compute_height c5Node = 242/5 ∧
    specHeightSum c5Bpy (compute_buttons_y_space NodeClass.generic) = 258/5 ∧
    Node.compute_height c5Node ≠
      specHeightSum c5Bpy (compute_buttons_y_space NodeClass.generic) := by
  have hp45 : pyint (-45 : ℚ) = -45 := by
    rw [show (-45 : ℚ) = ((-45 : ℤ) : ℚ) from by norm_num, pyint_intCast]
  have h1 : Node.compute_height c5Node = 242/5 := by
    have hc : Node.compute_height c5Node = nodeHeight c5Bpy 0 := by
      simp [Node.compute_height, c5Node, compute_buttons_y_space]
    rw [hc]
    unfold nodeHeight
    norm_num [c5Bpy, exBpy, sockLoop, visSocket, hp45]
  have h2 : specHeightSum c5Bpy (compute_buttons_y_space NodeClass.generic) = 258/5 := by
    norm_num [specHeightSum, c5Bpy, exBpy, countVisible, visSocket, compute_buttons_y_space]
  exact ⟨h1, h2, by rw [h1, h2]; norm_num⟩

/-- Claim C5 (amended): for every non-Frame node with `hide = false` at
y-location 0 with at least one visible output and at least one visible
input, `compute_height()` equals a 20px header, 5px top padding, a 20px
row per visible output with 1px effective spacing between consecutive
rows (truncation reduces the nominal 1.6px spacing, and the spacing after
the last row is added back), the `compute_buttons_y_space()` contribution
padded by 5px on each side when positive, the same row formula for
visible inputs, and a closing 5px half-row:
`28 + 21·visibleOutputs + 21·visibleInputs + (buttons > 0 ? 10 + buttons : 0)`. -/
theorem C5_height_closed_form (cls : NodeClass) (bpy : BpyNode) (ch : List Node)
    (hcls : cls ≠ .frame) (hhide : bpy.hide = false) (hy : bpy.locy = 0)
    (hno : 1 ≤ countVisible bpy.outputs) (hni : 1 ≤ countVisible bpy.inputs) :
    Node.compute_height (.mk cls bpy ch) =
      28 + 21 * (countVisible bpy.outputs : ℚ) + 21 * (countVisible bpy.inputs : ℚ) +
        (if 0 < compute_buttons_y_space cls then 10 + compute_buttons_y_space cls else 0) := by
  have hbz : ∃ bz : ℤ, 0 ≤ bz ∧ compute_buttons_y_space cls = ((bz : ℤ) : ℚ) := by
    cases cls
    case frame => exact absurd rfl hcls
    case groupNode => exact ⟨20, by norm_num, by norm_num [compute_buttons_y_space]⟩
    case mixRGB => exact ⟨40, by norm_num, by norm_num [compute_buttons_y_space]⟩
    case gradientTexture => exact ⟨20, by norm_num, by norm_num [compute_buttons_y_space]⟩
    case musgraveTexture => exact ⟨20, by norm_num, by norm_num [compute_buttons_y_space]⟩
    case voronoiTexture => exact ⟨20, by norm_num, by norm_num [compute_buttons_y_space]⟩
    case colorRamp => exact ⟨112, by norm_num, by norm_num [compute_buttons_y_space]⟩
    case rgbCurve => exact ⟨215, by norm_num, by norm_num [compute_buttons_y_space]⟩
    case math => exact ⟨50, by norm_num, by norm_num [compute_buttons_y_space]⟩
    all_goals exact ⟨0, le_refl 0, by norm_num [compute_buttons_y_space]⟩
  obtain ⟨bz, hb0, hbq⟩ := hbz
  have hch : Node.compute_height (.mk cls bpy ch) =
      nodeHeight bpy (compute_buttons_y_space cls) := by
    cases cls
    case frame => exact absurd rfl hcls
    all_goals simp [Node.compute_height]
  rw [hch, hbq, nodeHeight_closed bpy bz hb0 hhide hy hno hni]

/-- Witness for C5 (amended): a visible generic node at y = 0 with one
visible output and one visible input has height `28 + 21 + 21 = 70`. -/
theorem C5_height_closed_form_witness :
    NodeClass.generic ≠ NodeClass.frame ∧ c5WitBpy.hide = false ∧ c5WitBpy.locy = 0 ∧
    1 ≤ countVisible c5WitBpy.outputs ∧ 1 ≤ countVisible c5WitBpy.inputs ∧
    Node.compute_height (.mk .generic c5WitBpy []) = 70 := by
  have h4 : 1 ≤ countVisible c5WitBpy.outputs := by
    norm_num [c5WitBpy, exBpy, countVisible, visSocket]
  have h5 : 1 ≤ countVisible c5WitBpy.inputs := by
    norm_num [c5WitBpy, exBpy, countVisible, visSocket]
  refine ⟨by decide, rfl, rfl, h4, h5, ?_⟩
  rw [C5_height_closed_form .generic c5WitBpy [] (by decide) rfl rfl h4 h5]
  norm_num [c5WitBpy, exBpy, countVisible, visSocket, compute_buttons_y_space]

/-- Claim C6: `Node.create` on a type tag absent from the registry never
fails — it degrades to the base `Node` class, whose
`compute_buttons_y_space()` is 0, so its `compute_height()` equals the
generic-node formula with no type-specific rows. -/
theorem C6_unknown_tag_fallback (tag : String) (bpy : BpyNode)
    (h : tag ∉ registryKeys) :
    Node.create tag bpy = Node.mk .generic bpy [] ∧
    compute_buttons_y_space (Node.create tag bpy).cls = 0 ∧
    Node.compute_height (Node.create tag bpy) = nodeHeight bpy 0 ∧
    Node.compute_height (Node.create tag bpy) =
      Node.compute_height (Node.mk .generic bpy []) := by
  have hl : node_type_to_class.lookup tag = none :=
    lookup_eq_none_of_not_mem tag node_type_to_class h
  have hc : Node.create tag bpy = Node.mk .generic bpy [] := by
    unfold Node.create
    rw [hl]
    rfl
  refine ⟨hc, ?_, ?_, ?_⟩
  · rw [hc]
    rfl
  · rw [hc]
    simp [Node.compute_height, compute_buttons_y_space]
  · rw [hc]

/-- Witness for C6: `'ShaderNodeBsdfGlossy'` is not a registry key and
creating a node with it yields a base-class `Node` instance. -/
theorem C6_unknown_tag_fallback_witness :
    "ShaderNodeBsdfGlossy" ∉ registryKeys ∧
    Node.create "ShaderNodeBsdfGlossy" exBpy = Node.mk .generic exBpy [] :=
  ⟨by decide, (C6_unknown_tag_fallback "ShaderNodeBsdfGlossy" exBpy (by decide)).1⟩

/-- Claim C7: `Frame.compute_height()` mirrors `compute_width()` over the
y-axis with signs flipped: with non-empty `children` it returns
`max over children of (child.y + margin) - min over children of
(child.y - child.compute_height() - margin)` with `margin = 30` (within
the fold's sentinels), and with empty `children` the stored explicit
height. -/
theorem C7_frame_height (bpy : BpyNode) (children : List Node)
    (hne : children ≠ [])
    (hlo : ∀ x ∈ children, x.locy - x.compute_height - 30 ≤ sentinel)
    (hhi : ∀ x ∈ children, -sentinel ≤ x.locy + 30) :
    Node.compute_height (.mk .frame bpy children) =
      qmaxList (children.map fun x => x.locy + 30) -
      qminList (children.map fun x => x.locy - x.compute_height - 30) ∧
    Node.compute_height (.mk .frame bpy []) = bpy.height := by
  constructor
  · cases children with
    | nil => exact absurd rfl hne
    | cons c cs => exact frame_height_eq bpy c cs hlo hhi
  · simp [Node.compute_height]

/-- Witness for C7: a frame over two plain nodes at y = 0 and y = -100
(each of computed height `109/5`) has computed height
`(0 + 30) - (-100 - 109/5 - 30) = 909/5`. -/
theorem C7_frame_height_witness :
    frameChildrenY ≠ [] ∧
    Node.compute_height exFrameY = 909/5 := by
  have hch : ∀ x ∈ frameChildrenY, Node.compute_height x = 109/5 := by
    norm_num [frameChildrenY, plainAt, Node.compute_height, nodeHeight, exBpy, sockLoop,
      compute_buttons_y_space]
  have hlo : ∀ x ∈ frameChildrenY, x.locy - x.compute_height - 30 ≤ sentinel := by
    intro x hx
    rw [hch x hx]
    simp only [frameChildrenY, List.mem_cons, List.mem_singleton] at hx
    rcases hx with rfl | hx
    · norm_num [plainAt, Node.locy, Node.bpy, exBpy, sentinel]
    · rcases hx with rfl | hx
      · norm_num [plainAt, Node.locy, Node.bpy, exBpy, sentinel]
      · simp at hx
  have hhi : ∀ x ∈ frameChildrenY, -sentinel ≤ x.locy + 30 := by
    norm_num [frameChildrenY, plainAt, Node.locy, Node.bpy, exBpy, sentinel]
  refine ⟨List.cons_ne_nil _ _, ?_⟩
  have h := (C7_frame_height exBpy frameChildrenY (List.cons_ne_nil _ _) hlo hhi).1
  show Node.compute_height (.mk .frame exBpy frameChildrenY) = 909/5
  rw [h]
  norm_num [frameChildrenY, plainAt, qmaxList, qminList, Node.locy, Node.bpy, exBpy,
    Node.compute_height, nodeHeight, sockLoop, compute_buttons_y_space]

/-- Counterexample to claim C8: re-parenting breaks the bidirectional
invariant.  In a heap with frames 0 and 1 and plain node 2, the sequence
`2.set_parent(0); 2.set_parent(1)` leaves node 2 in frame 0's child list
while its back-reference points at frame 1, so the claimed "after any
sequence of set_parent calls" consistency is false. -/
theorem C8_reparenting_breaks_consistency :
    ¬ Consistent (runSeq st8 seqBad) := by decide

/-- Claim C8 (amended): each `set_parent(p)` call always records the
back-reference and appends the node to `p`'s child list exactly when `p`
is a `Frame`; consequently after any sequence of `set_parent` calls on
in-range nodes in which no node is re-parented (each node appears at most
once as the child argument, and was fresh before the sequence), every
Frame's child list and its children's parent links agree bidirectionally,
and non-Frame nodes' child lists stay empty. -/
theorem C8_parenting_consistency (st : List PNode) (seq : List (ℕ × ℕ))
    (hc : Consistent st)
    (hb : ∀ q ∈ seq, q.1 < st.length ∧ q.2 < st.length)
    (hnd : (seq.map Prod.fst).Nodup)
    (hfr : ∀ q ∈ seq, Fresh st q.1) :
    Consistent (runSeq st seq) ∧
    (∀ n p, n < st.length → p < st.length →
      (getN (set_parent st n p) n).parent = some p ∧
      ((getN st p).cls = .frame →
        (getN (set_parent st n p) p).children = (getN st p).children ++ [n]) ∧
      ((getN st p).cls ≠ .frame →
        ∀ q, (getN (set_parent st n p) q).children = (getN st q).children)) := by
  constructor
  · induction seq generalizing st with
    | nil => exact hc
    | cons hd tl ih =>
      have hhd := hb hd (List.mem_cons_self hd tl)
      have hfhd := hfr hd (List.mem_cons_self hd tl)
      have hlen : (set_parent st hd.1 hd.2).length = st.length :=
        length_set_parent st hd.1 hd.2
      have hst : Consistent (set_parent st hd.1 hd.2) :=
        set_parent_consistent st hd.1 hd.2 hhd.1 hhd.2 hc hfhd
      have hnd1 : hd.1 ∉ tl.map Prod.fst := (List.nodup_cons.mp hnd).1
      have hnd2 : (tl.map Prod.fst).Nodup := (List.nodup_cons.mp hnd).2
      show Consistent (runSeq (set_parent st hd.1 hd.2) tl)
      apply ih (set_parent st hd.1 hd.2) hst
      · intro q hq
        rw [hlen]
        exact hb q (List.mem_cons_of_mem hd hq)
      · exact hnd2
      · intro q hq
        have hqn : q.1 ≠ hd.1 := by
          intro he
          exact hnd1 (he ▸ List.mem_map_of_mem Prod.fst hq)
        exact set_parent_fresh st hd.1 hd.2 q.1 hqn (hfr q (List.mem_cons_of_mem hd hq))
  · intro n p hn hp
    refine ⟨set_parent_parent_self st n p hn, ?_, ?_⟩
    · intro hfr2
      rw [set_parent_children, if_pos ⟨hfr2, rfl, hp⟩]
    · intro hnfr q
      rw [set_parent_children, if_neg fun hcon => hnfr hcon.1]

/-- Witness for C8 (amended): parenting node 1 and node 2 each once under
frame 0 keeps the heap consistent. -/
theorem C8_parenting_consistency_witness :
    Consistent st8 ∧ (seqGood.map Prod.fst).Nodup ∧ Consistent (runSeq st8 seqGood) := by
  refine ⟨by decide, by decide, ?_⟩
  exact (C8_parenting_consistency st8 seqGood (by decide) (by decide) (by decide) (by decide)).1

/-- Claim C9: `GroupOutput.create` delegates to
`Node.create(tree, 'NodeGroupOutput')`, and since `'NodeGroupOutput'` has
no registry entry (unlike `'NodeGroupInput'`, which maps to `GroupInput`)
the returned object is an instance of the base `Node` class, not of
`GroupOutput`. -/
theorem C9_group_output_generic (bpy : BpyNode) :
    GroupOutput.create bpy = Node.create "NodeGroupOutput" bpy ∧
    node_type_to_class.lookup "NodeGroupOutput" = none ∧
    (GroupOutput.create bpy).cls = .generic ∧
    NodeClass.generic ≠ .groupOutput ∧
    node_type_to_class.lookup "NodeGroupInput" = some .groupInput ∧
    (GroupInput.create bpy).cls = .groupInput := by
  have hl : node_type_to_class.lookup "NodeGroupOutput" = none := by decide
  have hli : node_type_to_class.lookup "NodeGroupInput" = some .groupInput := by decide
  refine ⟨rfl, hl, ?_, by decide, hli, ?_⟩
  · show ((node_type_to_class.lookup "NodeGroupOutput").getD .generic) = NodeClass.generic
    rw [hl]
    rfl
  · show ((node_type_to_class.lookup "NodeGroupInput").getD .generic) = NodeClass.groupInput
    rw [hli]
    rfl

/-- Claim C10: `ColorRamp.compute_width()` returns the maximum of the
stored width and `10 * 20 = 200` pixels — never less than 200, and equal
to the stored width when that exceeds 200 — while the base
`Node.compute_width()` returns the stored width unchanged. -/
theorem C10_colorramp_min_width (bpy : BpyNode) :
    Node.compute_width (.mk .colorRamp bpy []) = max bpy.width (10 * 20) ∧
    (10 * 20 : ℚ) ≤ Node.compute_width (.mk .colorRamp bpy []) ∧
    ((10 * 20 : ℚ) < bpy.width → Node.compute_width (.mk .colorRamp bpy []) = bpy.width) ∧
    Node.compute_width (.mk .generic bpy []) = bpy.width := by
  have h0 : Node.compute_width (.mk .colorRamp bpy []) =
      if bpy.width < 10 * 20 then 10 * 20 else bpy.width := by
    simp [Node.compute_width]
  have h1 : Node.compute_width (.mk .colorRamp bpy []) = max bpy.width (10 * 20) := by
    rw [h0]
    rcases lt_or_le bpy.width (10 * 20) with hw | hw
    · rw [if_pos hw, max_eq_right hw.le]
    · rw [if_neg (not_lt.mpr hw), max_eq_left hw]
  refine ⟨h1, ?_, ?_, ?_⟩
  · rw [h1]
    exact le_max_right _ _
  · intro hlt
    rw [h1]
    exact max_eq_left hlt.le
  · simp [Node.compute_width]

/-- Witness for C10: a `ColorRamp` whose stored width is 300 keeps its
stored width. -/
theorem C10_colorramp_min_width_witness :
    (10 * 20 : ℚ) < crBpy.width ∧
    Node.compute_width (.mk .colorRamp crBpy []) = crBpy.width := by
  have hw : (10 * 20 : ℚ) < crBpy.width := by norm_num [crBpy, exBpy]
  exact ⟨hw, (C10_colorramp_min_width crBpy).2.2.1 hw⟩

end Woodwork
